import Mathlib

/-!
Shallow embedding of `src/main.rs` (JawwadK/todo_list): a command-line todo
manager.  Rust `DateTime<Local>` instants are modelled as abstract `Nat` clock
values, `NaiveDateTime` due dates likewise; the due-date string parser (a call
into chrono, not of this repository) is a parameter `parseDue`.  File I/O is
modelled by an explicit `FileState` and a `saveOk` flag; fallible operations
return `Except String`.
-/

namespace TodoApp

/-- `enum Priority { High, Medium, Low }` (main.rs lines 9-14). -/
inductive Priority where
  | High
  | Medium
  | Low
deriving DecidableEq, Repr

/-- `struct Todo` (main.rs lines 16-26).  Instants are abstract `Nat` ticks. -/
structure Todo where
  id : Nat
  title : String
  completed : Bool
  created_at : Nat
  completed_at : Option Nat
  priority : Priority
  due_date : Option Nat
  categories : List String
deriving DecidableEq, Repr

/-- The priority-string match inside `Todo::new` (main.rs lines 64-68):
`Some("high")` gives High, `Some("medium")` gives Medium, everything else
(any other string, or absent) gives Low. -/
def parsePriority : Option String → Priority
  | some "high" => Priority.High
  | some "medium" => Priority.Medium
  | _ => Priority.Low

/-- `Todo::new` (main.rs lines 63-84).  `parseDue` stands for the chrono
date parse in `due_date_str.and_then(...)`; `now` is the injected clock. -/
def Todo.new (parseDue : String → Option Nat) (title : String)
    (priority_str : Option String) (due_date_str : Option String)
    (categories : List String) (now : Nat) : Todo :=
  { id := 0
    title := title
    completed := false
    created_at := now
    completed_at := none
    priority := parsePriority priority_str
    due_date := due_date_str.bind parseDue
    categories := categories }

/-- `struct TodoList` (main.rs lines 95-98). -/
structure TodoList where
  todos : List Todo
  file_path : String
deriving DecidableEq, Repr

/-- State of the backing file as seen by `TodoList::new`:
absent, present but unreadable (I/O error on read), or present with content
that either parses to a list of todos or not. -/
inductive FileState where
  | absent
  | unreadable
  | content (parsed : Option (List Todo))

/-- `TodoList::new` (main.rs lines 101-111): if the file exists, read it
(propagating read errors) and parse with `unwrap_or_default` (parse failure
yields the empty list); otherwise start empty.  The path is the fixed
`"todos.json"`. -/
def TodoList.new (fs : FileState) : Except String TodoList :=
  match fs with
  | FileState.absent => Except.ok { todos := [], file_path := "todos.json" }
  | FileState.unreadable => Except.error "io error reading todos.json"
  | FileState.content parsed =>
      Except.ok { todos := parsed.getD [], file_path := "todos.json" }

/-- `TodoList::add` (main.rs lines 118-125): build the todo, set its id to
`self.todos.len() + 1`, push, save.  `saveOk` models whether `save()`
succeeds; on save failure the error propagates (`?`). -/
def TodoList.add (parseDue : String → Option Nat) (saveOk : Bool)
    (l : TodoList) (title : String) (priority due : Option String)
    (categories : List String) (now : Nat) : Except String TodoList :=
  let todo := { Todo.new parseDue title priority due categories now with
                  id := l.todos.length + 1 }
  let l2 := { l with todos := l.todos ++ [todo] }
  if saveOk then Except.ok l2 else Except.error "io error on save"

/-- Outcome of `TodoList::complete` as printed by main.rs lines 223-243. -/
inductive CompleteOutcome where
  | Completed (title : String)
  | AlreadyCompleted (id : Nat)
  | NotFound (id : Nat)
deriving DecidableEq, Repr

/-- Outcome of `TodoList::delete` as printed by main.rs lines 245-260. -/
inductive DeleteOutcome where
  | Deleted (title : String)
  | NotFound (id : Nat)
deriving DecidableEq, Repr

/-- Core of `TodoList::complete` (main.rs lines 223-243):
`self.todos.iter_mut().find(|t| t.id == id)` locates the FIRST todo with the
given id; if already completed nothing is mutated and nothing saved; if
pending it is marked completed with `completed_at = now` and a save is due;
if absent nothing happens.  Returns (new todos, outcome, save performed). -/
def completeTodos (id now : Nat) : List Todo → List Todo × CompleteOutcome × Bool
  | [] => ([], CompleteOutcome.NotFound id, false)
  | t :: ts =>
    if t.id = id then
      if t.completed then (t :: ts, CompleteOutcome.AlreadyCompleted id, false)
      else ({ t with completed := true, completed_at := some now } :: ts,
            CompleteOutcome.Completed t.title, true)
    else
      let r := completeTodos id now ts
      (t :: r.1, r.2.1, r.2.2)

/-- Core of `TodoList::delete` (main.rs lines 245-260):
`position(|t| t.id == id)` finds the FIRST index with the given id and
`remove(index)` drops it; if absent nothing happens.
Returns (new todos, outcome, save performed). -/
def deleteTodos (id : Nat) : List Todo → List Todo × DeleteOutcome × Bool
  | [] => ([], DeleteOutcome.NotFound id, false)
  | t :: ts =>
    if t.id = id then (ts, DeleteOutcome.Deleted t.title, true)
    else
      let r := deleteTodos id ts
      (t :: r.1, r.2.1, r.2.2)

/-- `TodoList::complete` with its save step (main.rs lines 223-243): in the
NotFound and AlreadyCompleted branches the function returns `Ok` before ever
calling `save`, so `saveOk` is consulted only when a mutation happened. -/
def TodoList.complete (saveOk : Bool) (l : TodoList) (id now : Nat) :
    Except String (TodoList × CompleteOutcome) :=
  let r := completeTodos id now l.todos
  if r.2.2 && !saveOk then Except.error "io error on save"
  else Except.ok ({ l with todos := r.1 }, r.2.1)

/-- `TodoList::delete` with its save step (main.rs lines 245-260). -/
def TodoList.delete (saveOk : Bool) (l : TodoList) (id : Nat) :
    Except String (TodoList × DeleteOutcome) :=
  let r := deleteTodos id l.todos
  if r.2.2 && !saveOk then Except.error "io error on save"
  else Except.ok ({ l with todos := r.1 }, r.2.1)

/-- The lowercase priority label used by the `list` filter
(main.rs lines 136-140). -/
def priorityLabel : Priority → String
  | Priority.High => "high"
  | Priority.Medium => "medium"
  | Priority.Low => "low"

/-- The loop body of `TodoList::list` (main.rs lines 127-161), displayed
items collected in order: an item is shown when `show_completed ==
todo.completed`, then the optional priority filter (`continue` on mismatch
with the lowercase label), then the optional category filter (`continue`
unless `todo.categories.contains(category)`). -/
def listTodos (show_completed : Bool) (priority_filter category_filter : Option String) :
    List Todo → List Todo
  | [] => []
  | t :: ts =>
    if show_completed = t.completed then
      let skipP : Bool := match priority_filter with
        | some p => p != priorityLabel t.priority
        | none => false
      if skipP then listTodos show_completed priority_filter category_filter ts
      else
        let skipC : Bool := match category_filter with
          | some c => !(t.categories.contains c)
          | none => false
        if skipC then listTodos show_completed priority_filter category_filter ts
        else t :: listTodos show_completed priority_filter category_filter ts
    else listTodos show_completed priority_filter category_filter ts

/-- Lowercasing as applied to titles and queries (`to_lowercase`),
at the character-list level. -/
def lowerChars (s : String) : List Char := s.data.map Char.toLower

/-- `str::starts_with` at the character-list level: does `s` begin with `q`? -/
def startsWithChars : List Char → List Char → Bool
  | [], _ => true
  | _ :: _, [] => false
  | q :: qs, c :: cs => q = c && startsWithChars qs cs

/-- `str::contains` (substring search) at the character-list level. -/
def containsChars (q : List Char) : List Char → Bool
  | [] => startsWithChars q []
  | c :: cs => startsWithChars q (c :: cs) || containsChars q cs

/-- The match test of `TodoList::search` (main.rs line 169):
`todo.title.to_lowercase().contains(&query.to_lowercase())`. -/
def titleMatches (query : String) (t : Todo) : Bool :=
  containsChars (lowerChars query) (lowerChars t.title)

/-- The loop of `TodoList::search` (main.rs lines 163-179), displayed items
collected in order. -/
def searchTodos (query : String) : List Todo → List Todo
  | [] => []
  | t :: ts =>
    if titleMatches query t then t :: searchTodos query ts
    else searchTodos query ts

/-- One CLI command as dispatched by `main` (main.rs lines 275-285),
restricted to the mutating operations, for reachability statements. -/
inductive Op where
  | add (title : String) (priority due : Option String)
      (tags : List String) (now : Nat)
  | complete (id now : Nat)
  | delete (id : Nat)

/-- Effect of one mutating command on the in-memory list of todos
(ignoring the save step, which does not change the list). -/
def applyOp (parseDue : String → Option Nat) (l : List Todo) : Op → List Todo
  | Op.add title p d tags now =>
      l ++ [{ Todo.new parseDue title p d tags now with id := l.length + 1 }]
  | Op.complete id now => (completeTodos id now l).1
  | Op.delete id => (deleteTodos id l).1

/-- The list of todos reached from an empty collection by a sequence of
mutating commands. -/
def runOps (parseDue : String → Option Nat) (ops : List Op) : List Todo :=
  ops.foldl (applyOp parseDue) []

/-- Invariant I2: `completed_at` is defined iff `completed` is true. -/
def invI2 (l : List Todo) : Prop :=
  ∀ t ∈ l, t.completed_at.isSome = t.completed

end TodoApp

namespace TodoApp

/-! ### C8: load salvage policy -/

/-- C8.  `TodoList::new` (load) yields an empty collection bound to
`todos.json` when the backing file is absent, and also an empty collection
when the file exists but its content does not parse (salvage); a parseable
file yields its items; it fails only on an I/O error other than not-found. -/
theorem load_salvage_policy :
    (TodoList.new FileState.absent
       = Except.ok { todos := [], file_path := "todos.json" }) ∧
    (TodoList.new (FileState.content none)
       = Except.ok { todos := [], file_path := "todos.json" }) ∧
    (∀ items : List Todo, TodoList.new (FileState.content (some items))
       = Except.ok { todos := items, file_path := "todos.json" }) ∧
    (TodoList.new FileState.unreadable
       = Except.error "io error reading todos.json") :=
  ⟨rfl, rfl, fun _ => rfl, rfl⟩

/-! ### C3: add does not validate the title -/

/-- C3 counterexample.  `add` with an empty title is not rejected: on an
empty collection it succeeds and creates an item with empty title. -/
theorem add_empty_title_accepted :
    TodoList.add (fun _ => none) true { todos := [], file_path := "todos.json" }
        "" none none [] 0
      = Except.ok
          { todos := [{ id := 1, title := "", completed := false, created_at := 0,
                        completed_at := none, priority := Priority.Low,
                        due_date := none, categories := [] }],
            file_path := "todos.json" } :=
  rfl

/-- C3 amended.  `add` performs no title validation: an empty title is
accepted like any other, the item is created with the empty title and
appended, and the save is performed (the operation succeeds). -/
theorem add_no_title_validation (parseDue : String → Option Nat)
    (l : TodoList) (p d : Option String) (tags : List String) (now : Nat) :
    TodoList.add parseDue true l "" p d tags now
      = Except.ok { l with todos := l.todos ++
          [{ Todo.new parseDue "" p d tags now with id := l.todos.length + 1 }] } :=
  rfl

/-! ### C4: priority parsing is case-sensitive -/

/-- C4 counterexample.  The capitalised discriminator name "High" is NOT
mapped to High: it falls through to Low. -/
theorem priority_capitalised_High_maps_to_Low :
    parsePriority (some "High") = Priority.Low ∧ Priority.Low ≠ Priority.High :=
  ⟨rfl, by decide⟩

/-- C4 amended.  Priority parsing is total and never fails, but it is
case-SENSITIVE: exactly the lowercase strings "high" and "medium" map to
High and Medium; every other string (including other casings of the
discriminator names) and an absent priority map to Low. -/
theorem parsePriority_total_lowercase_only (s : String)
    (h1 : s ≠ "high") (h2 : s ≠ "medium") :
    parsePriority (some s) = Priority.Low ∧
    parsePriority (some "high") = Priority.High ∧
    parsePriority (some "medium") = Priority.Medium ∧
    parsePriority none = Priority.Low := by
  refine ⟨?_, rfl, rfl, rfl⟩
  rw [parsePriority.eq_def]
  split
  · next heq => exact absurd (by injection heq) h1
  · next heq => exact absurd (by injection heq) h2
  · rfl

/-- C4 amended, witness at the concrete input "Low" (a capitalised
discriminator name, mapped to Low). -/
theorem parsePriority_total_lowercase_only_witness :
    parsePriority (some "Low") = Priority.Low ∧
    parsePriority (some "high") = Priority.High ∧
    parsePriority (some "medium") = Priority.Medium ∧
    parsePriority none = Priority.Low :=
  parsePriority_total_lowercase_only "Low" (by decide) (by decide)

end TodoApp

namespace TodoApp

/-! ### C1: id assignment is length + 1, not max + 1 -/

/-- Recogniser for add commands, for adds-only traces. -/
def Op.isAdd : Op → Bool
  | Op.add _ _ _ _ _ => true
  | _ => false

/-- In an adds-only trace every id stays bounded by the list length
(so each freshly assigned id `length + 1` exceeds all present ids). -/
theorem ids_le_length_of_adds (parseDue : String → Option Nat) :
    ∀ (ops : List Op) (l : List Todo), (∀ o ∈ ops, o.isAdd) →
      (∀ t ∈ l, t.id ≤ l.length) →
      ∀ t ∈ ops.foldl (applyOp parseDue) l,
        t.id ≤ (ops.foldl (applyOp parseDue) l).length := by
  intro ops
  induction ops with
  | nil => intro l _ hl; simpa using hl
  | cons o os ih =>
    intro l hops hl
    simp only [List.foldl_cons]
    refine ih (applyOp parseDue l o) (fun o' ho' => hops o' (List.mem_cons_of_mem _ ho')) ?_
    have ha := hops o (List.mem_cons_self _ _)
    cases o with
    | add title p d tags now =>
      intro t ht
      simp only [applyOp, List.length_append, List.length_cons, List.length_nil] at ht ⊢
      rcases List.mem_append.1 ht with h | h
      · exact Nat.le_trans (hl t h) (by omega)
      · simp only [List.mem_singleton] at h
        subst h
        simp
    | complete id now => simp [Op.isAdd] at ha
    | delete id => simp [Op.isAdd] at ha

/-- C1 counterexample.  After `add "A"`, `add "B"`, `delete 1` the ids
present are `[2]`, and the next `add "C"` assigns id 2 (`len + 1`), not
`max + 1 = 3`: the new id equals an id already present. -/
theorem new_id_collides_after_delete :
    ((runOps (fun _ => none)
        [Op.add "A" none none [] 0, Op.add "B" none none [] 1,
         Op.delete 1]).map Todo.id = [2]) ∧
    ((runOps (fun _ => none)
        [Op.add "A" none none [] 0, Op.add "B" none none [] 1,
         Op.delete 1, Op.add "C" none none [] 2]).map Todo.id = [2, 2]) :=
  ⟨rfl, rfl⟩

/-- C1 amended.  `add` assigns the new item the id `(collection length) + 1`
(so 1 on an empty collection); in any trace of adds with no deletes this
id strictly exceeds every id currently present, but after deletes it may
equal an id currently present. -/
theorem add_id_is_length_succ (parseDue : String → Option Nat)
    (ops : List Op) (hadds : ∀ o ∈ ops, o.isAdd)
    (title : String) (p d : Option String) (tags : List String) (now : Nat) :
    (∀ l : List Todo, (applyOp parseDue l (Op.add title p d tags now)).map Todo.id
        = l.map Todo.id ++ [l.length + 1]) ∧
    (∀ t ∈ runOps parseDue ops, t.id < (runOps parseDue ops).length + 1) := by
  constructor
  · intro l
    simp [applyOp]
  · intro t ht
    have h2 := ids_le_length_of_adds parseDue ops [] hadds (by simp) t
      (by simpa [runOps] using ht)
    simp only [runOps]
    omega

/-- C1 amended, witness: a one-add trace. -/
theorem add_id_is_length_succ_witness :
    (∀ l : List Todo, (applyOp (fun _ => none) l (Op.add "B" none none [] 1)).map Todo.id
        = l.map Todo.id ++ [l.length + 1]) ∧
    (∀ t ∈ runOps (fun _ => none) [Op.add "A" none none [] 0],
        t.id < (runOps (fun _ => none) [Op.add "A" none none [] 0]).length + 1) :=
  add_id_is_length_succ (fun _ => none) [Op.add "A" none none [] 0]
    (by intro o ho; simp only [List.mem_singleton] at ho; subst ho; rfl)
    "B" none none [] 1

end TodoApp

namespace TodoApp

/-! ### C5 and C6: complete on an already-completed id, and absent ids -/

/-- A concrete pending sample item (for witnesses). -/
def sampleTodo (i : Nat) (title : String) : Todo :=
  { id := i, title := title, completed := false, created_at := 0,
    completed_at := none, priority := Priority.Low, due_date := none,
    categories := [] }

/-- A concrete completed sample item (for witnesses). -/
def sampleDone (i : Nat) (title : String) : Todo :=
  { id := i, title := title, completed := true, created_at := 0,
    completed_at := some 1, priority := Priority.Low, due_date := none,
    categories := [] }

/-- If the first item found with the given id is already completed, the
complete loop leaves the list unchanged, reports AlreadyCompleted, and
requests no save. -/
theorem completeTodos_of_find_completed (id now : Nat) :
    ∀ (l : List Todo) (t : Todo),
      l.find? (fun x => x.id == id) = some t → t.completed = true →
      completeTodos id now l = (l, CompleteOutcome.AlreadyCompleted id, false) := by
  intro l
  induction l with
  | nil => intro t h; simp [List.find?] at h
  | cons x xs ih =>
    intro t hf hc
    by_cases hx : x.id = id
    · simp only [List.find?_cons, hx, beq_self_eq_true, if_true,
                 Option.some.injEq] at hf
      subst hf
      simp [completeTodos, hx, hc]
    · have hb : (x.id == id) = false := by simp [hx]
      simp only [List.find?_cons, hb] at hf
      have hrec := ih t hf hc
      simp [completeTodos, hx, hrec]

/-- C5.  If the item found with the given id is already completed,
`complete` is a no-op: the loop leaves every item unmutated, the outcome is
AlreadyCompleted, the save flag is false (the file is not rewritten), and
the operation succeeds whether or not a save could succeed. -/
theorem complete_already_completed_noop (saveOk : Bool) (l : TodoList)
    (id now : Nat) (t : Todo)
    (hfind : l.todos.find? (fun x => x.id == id) = some t)
    (hc : t.completed = true) :
    completeTodos id now l.todos
      = (l.todos, CompleteOutcome.AlreadyCompleted id, false) ∧
    TodoList.complete saveOk l id now
      = Except.ok (l, CompleteOutcome.AlreadyCompleted id) := by
  have h := completeTodos_of_find_completed id now l.todos t hfind hc
  exact ⟨h, by simp [TodoList.complete, h]⟩

/-- C5 witness: a two-item collection whose item 2 is already completed,
with a failing save (`saveOk = false`): the call still succeeds. -/
theorem complete_already_completed_noop_witness :
    completeTodos 2 9 [sampleTodo 1 "A", sampleDone 2 "B"]
      = ([sampleTodo 1 "A", sampleDone 2 "B"],
         CompleteOutcome.AlreadyCompleted 2, false) ∧
    TodoList.complete false
        { todos := [sampleTodo 1 "A", sampleDone 2 "B"], file_path := "todos.json" } 2 9
      = Except.ok
          ({ todos := [sampleTodo 1 "A", sampleDone 2 "B"], file_path := "todos.json" },
           CompleteOutcome.AlreadyCompleted 2) :=
  complete_already_completed_noop false
    { todos := [sampleTodo 1 "A", sampleDone 2 "B"], file_path := "todos.json" }
    2 9 (sampleDone 2 "B") (by decide) (by decide)

/-- If no item has the given id, the complete loop changes nothing. -/
theorem completeTodos_not_found (id now : Nat) :
    ∀ l : List Todo, (∀ t ∈ l, t.id ≠ id) →
      completeTodos id now l = (l, CompleteOutcome.NotFound id, false) := by
  intro l
  induction l with
  | nil => intro _; rfl
  | cons x xs ih =>
    intro h
    have hx : x.id ≠ id := h x (List.mem_cons_self _ _)
    have hrec := ih (fun t ht => h t (List.mem_cons_of_mem _ ht))
    simp [completeTodos, hx, hrec]

/-- If no item has the given id, the delete loop changes nothing. -/
theorem deleteTodos_not_found (id : Nat) :
    ∀ l : List Todo, (∀ t ∈ l, t.id ≠ id) →
      deleteTodos id l = (l, DeleteOutcome.NotFound id, false) := by
  intro l
  induction l with
  | nil => intro _; rfl
  | cons x xs ih =>
    intro h
    have hx : x.id ≠ id := h x (List.mem_cons_self _ _)
    have hrec := ih (fun t ht => h t (List.mem_cons_of_mem _ ht))
    simp [deleteTodos, hx, hrec]

/-- C6.  For an id not present in the collection, `complete` and `delete`
leave the collection unchanged, request no save (the file is untouched),
and return `Ok` with a NotFound outcome — not an error — regardless of
whether a save could succeed. -/
theorem not_found_is_ok_noop (saveOk : Bool) (l : TodoList) (id now : Nat)
    (h : ∀ t ∈ l.todos, t.id ≠ id) :
    TodoList.complete saveOk l id now
      = Except.ok (l, CompleteOutcome.NotFound id) ∧
    TodoList.delete saveOk l id = Except.ok (l, DeleteOutcome.NotFound id) ∧
    (completeTodos id now l.todos).2.2 = false ∧
    (deleteTodos id l.todos).2.2 = false := by
  have hc := completeTodos_not_found id now l.todos h
  have hd := deleteTodos_not_found id l.todos h
  exact ⟨by simp [TodoList.complete, hc], by simp [TodoList.delete, hd],
         by simp [hc], by simp [hd]⟩

/-- C6 witness: id 99 on a one-item collection, with a failing save. -/
theorem not_found_is_ok_noop_witness :
    TodoList.complete false
        { todos := [sampleTodo 1 "A"], file_path := "todos.json" } 99 5
      = Except.ok ({ todos := [sampleTodo 1 "A"], file_path := "todos.json" },
                   CompleteOutcome.NotFound 99) ∧
    TodoList.delete false
        { todos := [sampleTodo 1 "A"], file_path := "todos.json" } 99
      = Except.ok ({ todos := [sampleTodo 1 "A"], file_path := "todos.json" },
                   DeleteOutcome.NotFound 99) ∧
    (completeTodos 99 5 [sampleTodo 1 "A"]).2.2 = false ∧
    (deleteTodos 99 [sampleTodo 1 "A"]).2.2 = false :=
  not_found_is_ok_noop false
    { todos := [sampleTodo 1 "A"], file_path := "todos.json" } 99 5 (by decide)

end TodoApp

namespace TodoApp

/-! ### C10: duplicate ids — only the first match is touched -/

/-- C10.  When the collection splits as `l1 ++ t :: l2` with no item of `l1`
carrying the requested id and `t` carrying it, `complete` acts on `t` alone
(marking it or reporting AlreadyCompleted) and `delete` removes `t` alone;
`l2` is returned unchanged even if it contains further items with that id. -/
theorem first_match_only (id now : Nat) :
    ∀ (l1 : List Todo) (t : Todo) (l2 : List Todo),
      (∀ u ∈ l1, u.id ≠ id) → t.id = id →
      ((t.completed = false →
          completeTodos id now (l1 ++ t :: l2)
            = (l1 ++ { t with completed := true, completed_at := some now } :: l2,
               CompleteOutcome.Completed t.title, true)) ∧
       (t.completed = true →
          completeTodos id now (l1 ++ t :: l2)
            = (l1 ++ t :: l2, CompleteOutcome.AlreadyCompleted id, false)) ∧
       deleteTodos id (l1 ++ t :: l2)
         = (l1 ++ l2, DeleteOutcome.Deleted t.title, true)) := by
  intro l1
  induction l1 with
  | nil =>
    intro t l2 _ ht
    refine ⟨?_, ?_, ?_⟩
    · intro hc; simp [completeTodos, ht, hc]
    · intro hc; simp [completeTodos, ht, hc]
    · simp [deleteTodos, ht]
  | cons x xs ih =>
    intro t l2 h1 ht
    have hx : x.id ≠ id := h1 x (List.mem_cons_self _ _)
    have hrec := ih t l2 (fun u hu => h1 u (List.mem_cons_of_mem _ hu)) ht
    refine ⟨?_, ?_, ?_⟩
    · intro hc; simp [completeTodos, hx, hrec.1 hc]
    · intro hc; simp [completeTodos, hx, hrec.2.1 hc]
    · simp [deleteTodos, hx, hrec.2.2]

/-- C10 witness: ids 1, 2, 2 — operating on id 2 touches only the middle
item, the trailing duplicate with id 2 survives unchanged. -/
theorem first_match_only_witness :
    completeTodos 2 7 [sampleTodo 1 "A", sampleTodo 2 "B", sampleTodo 2 "C"]
      = ([sampleTodo 1 "A",
          { sampleTodo 2 "B" with completed := true, completed_at := some 7 },
          sampleTodo 2 "C"],
         CompleteOutcome.Completed "B", true) ∧
    deleteTodos 2 [sampleTodo 1 "A", sampleTodo 2 "B", sampleTodo 2 "C"]
      = ([sampleTodo 1 "A", sampleTodo 2 "C"], DeleteOutcome.Deleted "B", true) :=
  ⟨(first_match_only 2 7 [sampleTodo 1 "A"] (sampleTodo 2 "B") [sampleTodo 2 "C"]
      (by decide) rfl).1 rfl,
   (first_match_only 2 7 [sampleTodo 1 "A"] (sampleTodo 2 "B") [sampleTodo 2 "C"]
      (by decide) rfl).2.2⟩

/-! ### C2: invariant I2 (completed_at defined iff completed) -/

/-- Every item of the list produced by the complete loop is either an
original item or an original item marked completed at `now`. -/
theorem mem_completeTodos (id now : Nat) :
    ∀ l : List Todo, ∀ t ∈ (completeTodos id now l).1,
      t ∈ l ∨ ∃ u ∈ l, t = { u with completed := true, completed_at := some now } := by
  intro l
  induction l with
  | nil => intro t ht; simp [completeTodos] at ht
  | cons x xs ih =>
    intro t ht
    simp only [completeTodos] at ht
    split at ht
    · split at ht
      · exact Or.inl ht
      · rcases List.mem_cons.1 ht with h | h
        · exact Or.inr ⟨x, List.mem_cons_self _ _, h⟩
        · exact Or.inl (List.mem_cons_of_mem _ h)
    · rcases List.mem_cons.1 ht with h | h
      · exact Or.inl (by simp [h])
      · rcases ih t h with h2 | ⟨u, hu, he⟩
        · exact Or.inl (List.mem_cons_of_mem _ h2)
        · exact Or.inr ⟨u, List.mem_cons_of_mem _ hu, he⟩

/-- Every item surviving the delete loop is an original item. -/
theorem mem_deleteTodos (id : Nat) :
    ∀ l : List Todo, ∀ t ∈ (deleteTodos id l).1, t ∈ l := by
  intro l
  induction l with
  | nil => intro t ht; simp [deleteTodos] at ht
  | cons x xs ih =>
    intro t ht
    simp only [deleteTodos] at ht
    split at ht
    · exact List.mem_cons_of_mem _ ht
    · rcases List.mem_cons.1 ht with h | h
      · exact List.mem_cons.2 (Or.inl h)
      · exact List.mem_cons_of_mem _ (ih t h)

/-- One mutating command preserves invariant I2. -/
theorem invI2_applyOp (parseDue : String → Option Nat)
    (l : List Todo) (op : Op) (h : invI2 l) : invI2 (applyOp parseDue l op) := by
  cases op with
  | add title p d tags now =>
    intro t ht
    simp only [applyOp] at ht
    rcases List.mem_append.1 ht with h2 | h2
    · exact h t h2
    · simp only [List.mem_singleton] at h2
      subst h2
      rfl
  | complete id now =>
    intro t ht
    rcases mem_completeTodos id now l t ht with h2 | ⟨u, _, he⟩
    · exact h t h2
    · subst he; rfl
  | delete id =>
    intro t ht
    exact h t (mem_deleteTodos id l t ht)

/-- Invariant I2 holds after any sequence of mutating commands run from the
empty collection. -/
theorem invI2_runOps (parseDue : String → Option Nat) (ops : List Op) :
    invI2 (runOps parseDue ops) := by
  suffices h : ∀ (os : List Op) (l : List Todo),
      invI2 l → invI2 (os.foldl (applyOp parseDue) l) by
    exact h ops [] (by intro t ht; simp at ht)
  intro os
  induction os with
  | nil => intro l hl; simpa using hl
  | cons o os2 ih =>
    intro l hl
    simp only [List.foldl_cons]
    exact ih _ (invI2_applyOp parseDue l o hl)

/-- C2.  `completed_at` is defined iff `completed` is true: every single
mutating operation preserves this, and it holds for every item of every
collection reachable from the empty one by adds, completes and deletes. -/
theorem completed_at_iff_completed (parseDue : String → Option Nat) :
    (∀ (l : List Todo) (op : Op), invI2 l → invI2 (applyOp parseDue l op)) ∧
    (∀ ops : List Op, invI2 (runOps parseDue ops)) :=
  ⟨fun l op h => invI2_applyOp parseDue l op h, invI2_runOps parseDue⟩

/-- C2 witness: an add applied to a list satisfying I2, and a concrete
add-then-complete trace. -/
theorem completed_at_iff_completed_witness :
    invI2 (applyOp (fun _ => none) [sampleDone 1 "Z"] (Op.add "A" none none [] 0)) ∧
    invI2 (runOps (fun _ => none) [Op.add "A" none none [] 0, Op.complete 1 1]) :=
  ⟨(completed_at_iff_completed (fun _ => none)).1 [sampleDone 1 "Z"]
      (Op.add "A" none none [] 0)
      (by intro t ht; simp only [List.mem_singleton] at ht; subst ht; rfl),
   (completed_at_iff_completed (fun _ => none)).2
      [Op.add "A" none none [] 0, Op.complete 1 1]⟩

end TodoApp

namespace TodoApp

/-! ### C7: search is case-insensitive substring match on titles -/

/-- `startsWithChars q s` holds exactly when `q` is a prefix of `s`. -/
theorem startsWithChars_iff :
    ∀ q s : List Char, startsWithChars q s = true ↔ ∃ v, q ++ v = s := by
  intro q
  induction q with
  | nil =>
    intro s
    simp [startsWithChars]
  | cons a as ih =>
    intro s
    cases s with
    | nil =>
      simp [startsWithChars]
    | cons b bs =>
      simp only [startsWithChars, Bool.and_eq_true, decide_eq_true_eq, ih bs]
      constructor
      · rintro ⟨rfl, v, rfl⟩
        exact ⟨v, rfl⟩
      · rintro ⟨v, hv⟩
        rw [List.cons_append] at hv
        injection hv with h1 h2
        exact ⟨h1, v, h2⟩

/-- `containsChars q s` holds exactly when `q` occurs as a contiguous
substring of `s`. -/
theorem containsChars_iff :
    ∀ (q s : List Char), containsChars q s = true ↔ ∃ u v, u ++ q ++ v = s := by
  intro q s
  induction s with
  | nil =>
    simp only [containsChars, startsWithChars_iff]
    constructor
    · rintro ⟨v, hv⟩
      exact ⟨[], v, by simpa using hv⟩
    · rintro ⟨u, v, huv⟩
      rcases List.append_eq_nil.1 huv with ⟨h1, h2⟩
      rcases List.append_eq_nil.1 h1 with ⟨h3, h4⟩
      exact ⟨v, by simp [h4, h2]⟩
  | cons c cs ih =>
    simp only [containsChars, Bool.or_eq_true, startsWithChars_iff, ih]
    constructor
    · rintro (⟨v, hv⟩ | ⟨u, v, huv⟩)
      · exact ⟨[], v, by simpa using hv⟩
      · exact ⟨c :: u, v, by simp [← huv]⟩
    · rintro ⟨u, v, huv⟩
      cases u with
      | nil =>
        exact Or.inl ⟨v, by simpa using huv⟩
      | cons x xs =>
        simp only [List.cons_append] at huv
        injection huv with h1 h2
        exact Or.inr ⟨xs, v, h2⟩

/-- The empty needle is a substring of everything. -/
theorem containsChars_nil_left : ∀ s : List Char, containsChars [] s = true := by
  intro s
  cases s with
  | nil => rfl
  | cons c cs => simp [containsChars, startsWithChars]

/-- The lowercasing of the empty query. -/
theorem lowerChars_empty : lowerChars "" = [] := rfl

/-- The search loop is the filter by the title-match test. -/
theorem searchTodos_eq_filter (query : String) :
    ∀ l : List Todo, searchTodos query l = l.filter (titleMatches query) := by
  intro l
  induction l with
  | nil => rfl
  | cons x xs ih =>
    by_cases h : titleMatches query x
    · simp [searchTodos, List.filter_cons, h, ih]
    · simp [searchTodos, List.filter_cons, h, ih]

/-- C7.  `search` returns exactly the items whose lowercased title contains
the lowercased query as a contiguous substring; the result is a sublist of
the collection (creation order preserved), and the empty query returns the
whole collection. -/
theorem search_case_insensitive_substring (query : String) (l : List Todo) :
    searchTodos query l = l.filter (titleMatches query) ∧
    (searchTodos query l).Sublist l ∧
    (∀ t, t ∈ searchTodos query l ↔
        t ∈ l ∧ ∃ u v, u ++ lowerChars query ++ v = lowerChars t.title) ∧
    searchTodos "" l = l := by
  refine ⟨searchTodos_eq_filter query l, ?_, ?_, ?_⟩
  · rw [searchTodos_eq_filter]
    exact List.filter_sublist l
  · intro t
    rw [searchTodos_eq_filter, List.mem_filter]
    unfold titleMatches
    rw [containsChars_iff]
  · rw [searchTodos_eq_filter]
    refine List.filter_eq_self.2 ?_
    intro a _
    unfold titleMatches
    rw [lowerChars_empty]
    exact containsChars_nil_left _

end TodoApp

namespace TodoApp

/-! ### C9: list filter composition -/

/-- The conjunction of the three `list` predicates: completed/pending
selector, optional priority filter (exact match on the lowercase label),
optional category filter (tag membership). -/
def listPred (show_completed : Bool) (priority_filter category_filter : Option String)
    (t : Todo) : Bool :=
  (show_completed == t.completed)
  && (match priority_filter with
      | some p => p == priorityLabel t.priority
      | none => true)
  && (match category_filter with
      | some c => t.categories.contains c
      | none => true)

/-- The `list` loop equals the filter by the conjoined predicate. -/
theorem listTodos_eq_filter (c : Bool) (p k : Option String) :
    ∀ l : List Todo, listTodos c p k l = l.filter (listPred c p k) := by
  intro l
  induction l with
  | nil => rfl
  | cons x xs ih =>
    rw [List.filter_cons]
    by_cases h1 : c = x.completed
    · subst h1
      cases p with
      | none =>
        cases k with
        | none => simp [listTodos, listPred, ih]
        | some s =>
          by_cases h3 : s ∈ x.categories
          · simp [listTodos, listPred, ih, h3]
          · simp [listTodos, listPred, ih, h3]
      | some s =>
        by_cases h2 : s = priorityLabel x.priority
        · subst h2
          cases k with
          | none => simp [listTodos, listPred, ih]
          | some s2 =>
            by_cases h3 : s2 ∈ x.categories
            · simp [listTodos, listPred, ih, h3]
            · simp [listTodos, listPred, ih, h3]
        · cases k with
          | none => simp [listTodos, listPred, ih, h2]
          | some s2 => simp [listTodos, listPred, ih, h2]
    · simp [listTodos, listPred, h1, ih]

/-- The conjoined `list` predicate, spelled out in propositions. -/
theorem listPred_eq_true_iff (c : Bool) (p k : Option String) (t : Todo) :
    listPred c p k t = true ↔
      c = t.completed ∧ (∀ s, p = some s → s = priorityLabel t.priority)
        ∧ (∀ s, k = some s → s ∈ t.categories) := by
  cases p with
  | none =>
    cases k with
    | none => simp [listPred]
    | some s2 => simp [listPred]
  | some s =>
    cases k with
    | none => simp [listPred]
    | some s2 => simp [listPred, and_assoc]

/-- C9.  `list` is the filter by the conjunction of the completed/pending
selector, the optional priority filter (exact match on the lowercase
discriminator label) and the optional category filter (tag membership);
the survivors keep their original creation order (the result is a sublist),
and membership is exactly the stated conjunction. -/
theorem list_filters_conjoined (c : Bool) (p k : Option String) (l : List Todo) :
    listTodos c p k l = l.filter (listPred c p k) ∧
    (listTodos c p k l).Sublist l ∧
    (∀ t, t ∈ listTodos c p k l ↔
        t ∈ l ∧ c = t.completed
          ∧ (∀ s, p = some s → s = priorityLabel t.priority)
          ∧ (∀ s, k = some s → s ∈ t.categories)) := by
  refine ⟨listTodos_eq_filter c p k l, ?_, ?_⟩
  · rw [listTodos_eq_filter]
    exact List.filter_sublist l
  · intro t
    rw [listTodos_eq_filter, List.mem_filter, listPred_eq_true_iff]

end TodoApp
